import Mathlib

/-!
Verification of the APRIL package-reconstruction tool (AOSC-Dev/april).

The development shallowly embeds the relevant Rust sources:
  * `src/april.rs`           — manifest model and planner,
  * `src/april_version.rs`   — Debian version comparator and expression language,
  * `src/reconstruct.rs`     — reconstruction executor (control-field patching,
                               path resolution, file operations, output path).

Rust `&str` / `String` values are modelled as UTF-8 byte sequences (`List Nat`),
because several source functions (`split_at_checked`, `version_string_cmp`)
operate on byte indices and byte values.  Fallible code returns `Except`/`Option`;
Rust panics (out-of-bounds indexing, `unreachable!`, `todo!`) are modelled as an
explicit `panicked` outcome where the claims depend on them.
-/

namespace April

/-- Rust strings, as their UTF-8 byte sequences. -/
abbrev Str := List Nat

/-- UTF-8 encoding of a single scalar value (standard 1–4 byte encoding). -/
def utf8Bytes (c : Char) : List Nat :=
  let n := c.toNat
  if n < 0x80 then [n]
  else if n < 0x800 then [0xC0 + n / 64, 0x80 + n % 64]
  else if n < 0x10000 then [0xE0 + n / 4096, 0x80 + (n / 64) % 64, 0x80 + n % 64]
  else [0xF0 + n / 262144, 0x80 + (n / 4096) % 64, 0x80 + (n / 64) % 64, 0x80 + n % 64]

/-- Byte sequence of a Lean string literal (used to write `Str` constants). -/
def strB (s : String) : Str := s.data.flatMap utf8Bytes

/-- Rust `str::split(',')`-style splitting: splits on a separator byte,
keeping empty pieces (`"" ↦ [""]`, `"a,,b" ↦ ["a","","b"]`). -/
def splitOnByte (sep : Nat) : Str → List Str
  | [] => [[]]
  | b :: rest =>
    let r := splitOnByte sep rest
    if b = sep then [] :: r
    else
      match r with
      | h :: t => (b :: h) :: t
      | [] => [[b]]

/-- ASCII whitespace (space, TAB, LF, VT, FF, CR); models the whitespace
recognised by Rust `str::trim` on the ASCII range that the control-file
syntax uses. -/
def isWsByte (b : Nat) : Bool := b = 32 || (9 ≤ b && b ≤ 13)

/-- Rust `str::trim`: strip leading and trailing whitespace. -/
def trimBytes (s : Str) : Str :=
  ((s.dropWhile isWsByte).reverse.dropWhile isWsByte).reverse

/-! ## Control paragraphs (deb822 `Paragraph`)

A control paragraph is modelled as an association list from field names to
values with at most one entry per field; `get`, `set` and `remove` are the
operations `apply_field_patch` uses. -/

/-- In-memory control paragraph: field name ↦ value. -/
abbrev Paragraph := List (Str × Str)

/-- `Paragraph::get`: value of the first entry with the given field name. -/
def pget (p : Paragraph) (k : Str) : Option Str :=
  (p.find? (fun e => e.1 == k)).map (·.2)

/-- `Paragraph::set`: update the entry in place, or insert at the end. -/
def pset : Paragraph → Str → Str → Paragraph
  | [], k, v => [(k, v)]
  | (k', v') :: rest, k, v =>
    if k' = k then (k, v) :: rest else (k', v') :: pset rest k v

/-- `Paragraph::remove`: drop the entry with the given field name. -/
def premove (p : Paragraph) (k : Str) : Paragraph :=
  p.filter (fun e => !(e.1 == k))

/-! ## Action types (`src/april.rs`) -/

/-- `AprilActionType`. -/
inductive AprilActionType
  | append
  | replace
  | remove
deriving DecidableEq

/-- `AprilFileOperationType` (tagged file-operation variants). -/
inductive AprilFileOperationType
  | remove
  | move (dst : Str)
  | copy (dst : Str)
  | link (dst : Str)
  | patch (uri : Str)
  | binaryPatch (uri : Str)
  | divert (dst : Str)
  | track
  | overwrite (uri : Str)
  | add (uri : Str)
  | chmod (mode : Nat)
  | mkdir
deriving DecidableEq

/-- `AprilAction` (planned actions). -/
inductive AprilAction
  | preconfigPackage
  | unpackPackage
  | extractPackage
  | configurePackage
  | installPackage
  | patchField (field : Str) (value : Str) (action : AprilActionType)
  | dropControlData
  | putControlChunk (data : Str)
  | patchScript (file : Str) (content : Option Str) (action : AprilActionType)
  | patchFile (path : Str) (action : AprilFileOperationType)
deriving DecidableEq

/-! ## Field patching (`src/reconstruct.rs`, lines 22–62) -/

/-- `remove_item_from_string_list`: split the list on `','`, trim each
element, drop elements equal to `item` or starting with `item ++ " ("`,
re-join with `", "`. -/
def remove_item_from_string_list (list item : Str) : Str :=
  let new_list := (splitOnByte 44 list).map trimBytes
  let new_list := new_list.filter
    (fun x => !(x == item) && !(List.isPrefixOf (item ++ [32, 40]) x))
  List.intercalate [44, 32] new_list

/-- `apply_field_patch`: apply one `PatchField` action to a paragraph.
The Rust function is `unreachable!` for non-`PatchField` actions (the
executor never passes them); that branch is modelled as the identity. -/
def apply_field_patch (action : AprilAction) (paragraph : Paragraph) : Paragraph :=
  match action with
  | .patchField field value act =>
    let field_value := (pget paragraph field).getD []
    match act with
    | .remove =>
      pset paragraph field (remove_item_from_string_list field_value value)
    | .append =>
      if field_value = [] then pset paragraph field value
      else pset paragraph field (field_value ++ [44, 32] ++ value)
    | .replace =>
      if value = [] then premove paragraph field
      else pset paragraph field value
  | _ => paragraph

/-! ## Manifest model (`src/april.rs`, lines 12–89)

The `files` map is a Rust `HashMap`; it is modelled as an association list
whose order stands for the (unspecified) iteration order of the map. -/

/-- `AprilFileOperationPhase`. -/
inductive AprilFileOperationPhase
  | unpack
  | postinst
deriving DecidableEq

/-- `AprilFileOperation`. -/
structure AprilFileOperation where
  phase : AprilFileOperationPhase
  operation : AprilFileOperationType
deriving DecidableEq

/-- `AprilPackageScriptOverrides`. -/
structure AprilPackageScriptOverrides where
  prerm : Option Str
  postrm : Option Str
  preinst : Option Str
  postinst : Option Str
  triggers : Option Str
deriving DecidableEq

/-- `AprilPackageOverrides` (`section` is a Lean keyword, hence `section'`). -/
structure AprilPackageOverrides where
  name : Option Str
  version : Option Str
  arch : Option Str
  essential : Option Bool
  installed_size : Option Nat
  section' : Option Str
  description : Option Str
  depends : Option (List Str)
  recommends : Option (List Str)
  suggests : Option (List Str)
  enhances : Option (List Str)
  pre_depends : Option (List Str)
  breaks : Option (List Str)
  conflicts : Option (List Str)
  replaces : Option (List Str)
  provides : Option (List Str)
  scripts : Option AprilPackageScriptOverrides
  conffiles : Option (List Str)
deriving DecidableEq

/-- `AprilPackage`. -/
structure AprilPackage where
  schema : Str
  name : Str
  compatible_versions : Str
  total_conversion : Bool
  overrides : AprilPackageOverrides
  files : Option (List (Str × AprilFileOperation))
deriving DecidableEq

/-! ## Planner (`src/april.rs`, lines 160–418) -/

/-- Rust `str::is_char_boundary`: true at 0, at the length, and at any byte
that is not a UTF-8 continuation byte (`b < 0x80 ∨ b ≥ 0xC0`). -/
def is_char_boundary (s : Str) (i : Nat) : Bool :=
  if i = 0 then true
  else
    match s.get? i with
    | none => i == s.length
    | some b => decide (b < 0x80) || decide (0xC0 ≤ b)

/-- Rust `str::split_at_checked`: split at a byte index, `none` when the
index is past the end or not a character boundary. -/
def split_at_checked (s : Str) (mid : Nat) : Option (Str × Str) :=
  if is_char_boundary s mid then some (s.take mid, s.drop mid) else none

/-- Loop body of `add_fields_patch_action` for one list element: skip empty
elements, split off the one-byte modifier (`'+'` = 43, `'-'` = 45) when byte
index 1 is a character boundary, and emit the matching `PatchField`; elements
for which `split_at_checked` fails yield nothing. -/
def list_elem_actions (name : Str) (f : Str) : List AprilAction :=
  if f = [] then []
  else
    match split_at_checked f 1 with
    | none => []
    | some (modifier, value) =>
      if modifier = [43] then [.patchField name value .append]
      else if modifier = [45] then [.patchField name value .remove]
      else [.patchField name f .append]

/-- `add_fields_patch_action`: expansion of a list-valued override field
(the Rust function pushes onto a `&mut Vec`; modelled as the list of pushed
actions). -/
def add_fields_patch_action (values : Option (List Str)) (name : Str) :
    List AprilAction :=
  match values with
  | none => []
  | some v =>
    if v = [] then [.patchField name [] .replace]
    else v.flatMap (list_elem_actions name)

/-- `add_field_patch_action`: expansion of a scalar override field. -/
def add_field_patch_action (field : Option Str) (name : Str) :
    Option AprilAction :=
  match field with
  | some f =>
    if f = [] then some (.patchField name [] .replace)
    else some (.patchField name f .replace)
  | none => none

/-- The repeated script-override blocks of `plan_actions_from_april_data`
(empty body ⇒ `Remove` with no content, non-empty ⇒ `Replace`). -/
def script_patch_action (file : Str) (body : Option Str) : List AprilAction :=
  match body with
  | none => []
  | some s =>
    if s = [] then [.patchScript file none .remove]
    else [.patchScript file (some s) .replace]

/-- Decimal rendering of a `u64` (`u64::to_string`). -/
def natDecimal (n : Nat) : Str := (Nat.repr n).data.map Char.toNat

/-- The two `files` loops of the planner: emit `PatchFile` for every map
entry whose phase matches. -/
def phase_file_actions (files : Option (List (Str × AprilFileOperation)))
    (ph : AprilFileOperationPhase) : List AprilAction :=
  match files with
  | none => []
  | some fs =>
    fs.flatMap (fun e =>
      if e.2.phase = ph then [.patchFile e.1 e.2.operation] else [])

/-- `plan_actions_from_april_data` (`src/april.rs`, lines 221–418).  The Rust
function returns `Result` but its only exit is `Ok(actions)`; the pushed
action sequence is modelled directly.  Note the planner writes the conffiles
script target as `"confflies"` (source lines 303 and 309). -/
def plan_actions_from_april_data (data : AprilPackage) : List AprilAction :=
  (if data.total_conversion then [.dropControlData] else [])
  ++ (match data.overrides.scripts with
      | none => []
      | some s =>
        script_patch_action (strB "preinst") s.preinst
        ++ script_patch_action (strB "prerm") s.prerm
        ++ script_patch_action (strB "triggers") s.triggers)
  ++ add_fields_patch_action data.overrides.pre_depends (strB "Pre-Depends")
  ++ (add_field_patch_action data.overrides.arch (strB "Architecture")).toList
  ++ (add_field_patch_action data.overrides.name (strB "Package")).toList
  ++ (add_field_patch_action (data.overrides.installed_size.map natDecimal)
        (strB "Installed-Size")).toList
  ++ [.preconfigPackage]
  ++ (match data.overrides.conffiles with
      | none => []
      | some confflies =>
        let new_list := List.intercalate [10] confflies
        if new_list = [] then [.patchScript (strB "confflies") none .remove]
        else [.patchScript (strB "confflies") (some new_list) .replace])
  ++ [.extractPackage]
  ++ add_fields_patch_action data.overrides.depends (strB "Depends")
  ++ add_fields_patch_action data.overrides.recommends (strB "Recommends")
  ++ add_fields_patch_action data.overrides.conflicts (strB "Conflicts")
  ++ add_fields_patch_action data.overrides.suggests (strB "Suggests")
  ++ add_fields_patch_action data.overrides.breaks (strB "Breaks")
  ++ add_fields_patch_action data.overrides.replaces (strB "Replaces")
  ++ add_fields_patch_action data.overrides.provides (strB "Provides")
  ++ (add_field_patch_action data.overrides.version (strB "Version")).toList
  ++ (add_field_patch_action data.overrides.description (strB "Description")).toList
  ++ (add_field_patch_action data.overrides.section' (strB "Section")).toList
  ++ (add_field_patch_action
        (data.overrides.essential.map (fun v => if v then strB "yes" else strB "no"))
        (strB "Essential")).toList
  ++ phase_file_actions data.files .unpack
  ++ (match data.overrides.scripts with
      | none => []
      | some s =>
        script_patch_action (strB "postinst") s.postinst
        ++ script_patch_action (strB "postrm") s.postrm)
  ++ [.configurePackage]
  ++ phase_file_actions data.files .postinst

/-- Empty overrides record (all fields absent). -/
def emptyOverrides : AprilPackageOverrides :=
  { name := none, version := none, arch := none, essential := none,
    installed_size := none, section' := none, description := none,
    depends := none, recommends := none, suggests := none, enhances := none,
    pre_depends := none, breaks := none, conflicts := none, replaces := none,
    provides := none, scripts := none, conffiles := none }

/-- Concrete manifest whose only override is a one-entry `conffiles` list. -/
def conffilesManifest : AprilPackage :=
  { schema := strB "0", name := strB "foo",
    compatible_versions := strB ">=1.0",
    total_conversion := false,
    overrides := { emptyOverrides with conffiles := some [strB "etc/foo.conf"] },
    files := none }

/-- The file names the `PatchScript` documentation permits
(`src/april.rs`, line 123). -/
def allowedScriptFiles : List Str :=
  [strB "preinst", strB "postinst", strB "prerm", strB "postrm",
   strB "conffiles", strB "triggers"]

/-- UTF-8 continuation byte (`0x80–0xBF`). -/
def isContB (b : Nat) : Bool := 0x80 ≤ b && b ≤ 0xBF

/-! Validity of a byte sequence as UTF-8 (the invariant every Rust `String`
holds); used to state which inputs the planner's element splitting can see.
`utf8ContN` demands `n` continuation bytes before the next character. -/

mutual

def utf8ValidB : Str → Bool
  | [] => true
  | b :: rest =>
    if b < 0x80 then utf8ValidB rest
    else if 0xC2 ≤ b ∧ b ≤ 0xDF then utf8Cont1 rest
    else if 0xE0 ≤ b ∧ b ≤ 0xEF then utf8Cont2 rest
    else if 0xF0 ≤ b ∧ b ≤ 0xF4 then utf8Cont3 rest
    else false

def utf8Cont1 : Str → Bool
  | [] => false
  | c :: r => isContB c && utf8ValidB r

def utf8Cont2 : Str → Bool
  | [] => false
  | c :: r => isContB c && utf8Cont1 r

def utf8Cont3 : Str → Bool
  | [] => false
  | c :: r => isContB c && utf8Cont2 r

end

/-! ## Version engine (`src/april_version.rs`)

The comparator `version_string_cmp` is a cursor machine whose Rust source
indexes slices without bounds checks in several places; out-of-bounds
indexing panics.  The machine is therefore embedded with an explicit
`panicked` outcome, plus a `fuelOut` outcome for the fuel parameter that
replaces the source's unbounded `while` loops. -/

/-- Outcome of running a fuel-bounded loop translated from Rust: the loop
ran out of fuel (model artefact), panicked (slice index out of bounds), or
produced a value. -/
inductive RRes (α : Type) where
  | fuelOut
  | panicked
  | out (a : α)
deriving DecidableEq

/-- `u8::is_ascii_digit`. -/
def isDigitB (b : Nat) : Bool := 48 ≤ b && b ≤ 57

/-- `u8::is_ascii_alphabetic`. -/
def isAlphaB (b : Nat) : Bool := (65 ≤ b && b ≤ 90) || (97 ≤ b && b ≤ 122)

/-- `get_version_sort_priority` (an `i16` in Rust; values fit easily). -/
def get_version_sort_priority (c : Nat) : Int :=
  if isDigitB c then 0
  else if isAlphaB c then (c : Int)
  else if c = 126 then -1
  else (c : Int) + 0x100

/-- `DebVersion` (epoch, upstream version bytes, release bytes). -/
structure DebVersion where
  epoch : Nat
  version : Str
  release : Str
deriving DecidableEq

/-- The scanning loop of `DebVersion::parse`: position after the first
`':'` (0 if none) and position of the last `'-'` (length if none). -/
def colon_dash_scan (s : Str) : Nat × Nat :=
  s.enum.foldl
    (fun acc e =>
      if e.2 = 58 then (if acc.1 < 1 then (e.1 + 1, acc.2) else acc)
      else if e.2 = 45 then (acc.1, e.1)
      else acc)
    (0, s.length)

/-- `u32::from_str_radix(s, 10)`: optional sign, at least one digit, result
must fit in 32 bits (a negative value is only accepted when it is zero). -/
def parse_u32 (s : Str) : Option Nat :=
  let signed : Bool × Str :=
    match s with
    | 43 :: rest => (false, rest)
    | 45 :: rest => (true, rest)
    | _ => (false, s)
  let digits := signed.2
  if digits = [] then none
  else if digits.all isDigitB then
    let v := digits.foldl (fun a b => a * 10 + (b - 48)) 0
    if signed.1 then (if v = 0 then some 0 else none)
    else if v < 2 ^ 32 then some v else none
  else none

/-- `DebVersion::parse`. -/
def DebVersion.parse (input : Str) : Option DebVersion :=
  let scan := colon_dash_scan input
  let first_colon := scan.1
  let last_dash := scan.2
  let epochOpt :=
    if first_colon > 0 then parse_u32 (input.take (first_colon - 1)) else some 0
  match epochOpt with
  | none => none
  | some epoch =>
    let version := (input.take last_dash).drop first_colon
    let release_idx :=
      if last_dash = input.length then last_dash else last_dash + 1
    let release := input.drop release_idx
    some ⟨epoch, version, release⟩

/-- Non-digit scanning loop of `version_string_cmp` (source lines 205–217):
while either side sits on a non-digit, compare sort priorities.  The loop
body indexes both slices unguarded (`a[a_cursor]`, `b[b_cursor]`), so it
panics when one cursor is past its end while the other still sees a
non-digit. -/
def nd_loop (a b : Str) : Nat → Nat → Nat → RRes (Ordering ⊕ Nat × Nat)
  | 0, _, _ => .fuelOut
  | fuel + 1, ac, bc =>
    if (ac < a.length ∧ ¬ isDigitB (a.getD ac 0))
        ∨ (bc < b.length ∧ ¬ isDigitB (b.getD bc 0)) then
      if ac < a.length then
        if bc < b.length then
          let av := get_version_sort_priority (a.getD ac 0)
          let bv := get_version_sort_priority (b.getD bc 0)
          if av ≠ bv then .out (.inl (compare av bv))
          else nd_loop a b fuel (ac + 1) (bc + 1)
        else .panicked
      else .panicked
    else .out (.inr (ac, bc))

/-- Leading-zero skipping loop (source lines 219–224): `while a[cursor] == b'0'`
indexes without a bounds check, so it panics when the cursor is at the end. -/
def zero_skip (a : Str) : Nat → Nat → RRes Nat
  | 0, _ => .fuelOut
  | fuel + 1, ac =>
    if ac < a.length then
      if a.getD ac 0 = 48 then zero_skip a fuel (ac + 1) else .out ac
    else .panicked

/-- Digit-run comparison loop (source lines 227–234): the loop condition
`a[a_cursor].is_ascii_digit() && b[b_cursor].is_ascii_digit()` indexes `a`
first (panicking past the end), short-circuits, then indexes `b`. -/
def digit_loop (a b : Str) : Nat → Nat → Nat → Ordering → RRes (Nat × Nat × Ordering)
  | 0, _, _, _ => .fuelOut
  | fuel + 1, ac, bc, first_diff =>
    if ac < a.length then
      if isDigitB (a.getD ac 0) then
        if bc < b.length then
          if isDigitB (b.getD bc 0) then
            let fd :=
              if first_diff = .eq then compare (a.getD ac 0) (b.getD bc 0)
              else first_diff
            digit_loop a b fuel (ac + 1) (bc + 1) fd
          else .out (ac, bc, first_diff)
        else .panicked
      else .out (ac, bc, first_diff)
    else .panicked

/-- Outer loop of `version_string_cmp` (source lines 203–245), including the
unguarded tail reads at lines 236 and 239. -/
def vsc_outer (a b : Str) : Nat → Nat → Nat → RRes Ordering
  | 0, _, _ => .fuelOut
  | fuel + 1, ac, bc =>
    if ac ≤ a.length ∨ bc ≤ b.length then
      match nd_loop a b (fuel + 1) ac bc with
      | .fuelOut => .fuelOut
      | .panicked => .panicked
      | .out (.inl ord) => .out ord
      | .out (.inr p1) =>
        match zero_skip a (fuel + 1) p1.1 with
        | .fuelOut => .fuelOut
        | .panicked => .panicked
        | .out ac2 =>
          match zero_skip b (fuel + 1) p1.2 with
          | .fuelOut => .fuelOut
          | .panicked => .panicked
          | .out bc2 =>
            match digit_loop a b (fuel + 1) ac2 bc2 .eq with
            | .fuelOut => .fuelOut
            | .panicked => .panicked
            | .out r =>
              if r.1 < a.length then
                if isDigitB (a.getD r.1 0) then .out .gt
                else
                  if r.2.1 < b.length then
                    if isDigitB (b.getD r.2.1 0) then .out .lt
                    else if r.2.2 ≠ .eq then .out r.2.2
                    else vsc_outer a b fuel r.1 r.2.1
                  else .panicked
              else .panicked
    else .out .eq

/-- `version_string_cmp`, from both cursors at zero. -/
def version_string_cmp (a b : Str) (fuel : Nat) : RRes Ordering :=
  vsc_outer a b fuel 0 0

/-- `DebVersion::partial_cmp` (source lines 250–269): epoch first, then the
version part, then the release part; always returns `Some` in Rust, so the
result is the bare ordering (or a propagated panic / fuel exhaustion). -/
def debversion_partial_cmp (x y : DebVersion) (fuel : Nat) : RRes Ordering :=
  if x.epoch ≠ y.epoch then .out (compare x.epoch y.epoch)
  else
    match version_string_cmp x.version y.version fuel with
    | .fuelOut => .fuelOut
    | .panicked => .panicked
    | .out vo =>
      if vo ≠ .eq then .out vo
      else
        match version_string_cmp x.release y.release fuel with
        | .fuelOut => .fuelOut
        | .panicked => .panicked
        | .out ro => if ro ≠ .eq then .out ro else .out .eq

/-! ## Version expression lexer and parser (`src/april_version.rs`, lines 6–125
and 271–348)

The `logos`-generated lexer picks, at each position, the longest match among
the token rules, breaking ties by priority; the only overlapping rules are
`Hexadecimal` (explicit priority 3) and `VersionNumber` (default priority 2),
and every rule's first byte otherwise determines it.  The `sha256sum` rule
runs the `parse_function_call` callback, which pulls `(`, a hex literal and
`)` from the lexer and turns the token into an error on any mismatch. -/

/-- `VersionToken`. -/
inductive VersionToken where
  | eq
  | eqEq
  | notEq
  | gtEq
  | ltEq
  | gt
  | lt
  | orOp
  | andOp
  | lparen
  | rparen
  | sha256Sum (s : Str)
  | hexadecimal (s : Str)
  | versionNumber (s : Str)
deriving DecidableEq

/-- `VersionToken::is_op`. -/
def VersionToken.is_op : VersionToken → Bool
  | .eq | .eqEq | .notEq | .gtEq | .ltEq | .gt | .lt | .orOp | .andOp => true
  | _ => false

/-- `VersionToken::is_cmp_op`. -/
def VersionToken.is_cmp_op : VersionToken → Bool
  | .eq | .eqEq | .notEq | .gtEq | .ltEq | .gt | .lt => true
  | _ => false

/-- `VersionToken::precedence` (note `EqEq` falls through to the
"invalid operator" arm in the source and gets 0). -/
def VersionToken.precedence : VersionToken → Nat
  | .eq | .gtEq | .ltEq | .gt | .lt | .sha256Sum _ | .notEq => 10
  | .orOp | .andOp => 1
  | _ => 0

/-- The skipped whitespace class `[ \t\n\f]`. -/
def isLexWs (b : Nat) : Bool := b = 32 || b = 9 || b = 10 || b = 12

/-- Hexadecimal character class `[a-fA-F0-9]`. -/
def isHexB (b : Nat) : Bool :=
  isDigitB b || (97 ≤ b && b ≤ 102) || (65 ≤ b && b ≤ 70)

/-- Version-number continuation class `[0-9A-Za-z.+\-~]`. -/
def isVerRunB (b : Nat) : Bool :=
  isDigitB b || isAlphaB b || b = 46 || b = 43 || b = 45 || b = 126

/-- Longest match of the regex `(\d+:)?[0-9][0-9A-Za-z.+\-~]*` at the head
of `s` (0 when it does not match).  The optional epoch alternative, when it
applies, is strictly longer because `':'` is outside the continuation
class. -/
def ver_match_len (s : Str) : Nat :=
  let d := (s.takeWhile isDigitB).length
  if 1 ≤ d ∧ d + 1 < s.length ∧ s.getD d 0 = 58 ∧ isDigitB (s.getD (d + 1) 0) then
    d + 2 + ((s.drop (d + 2)).takeWhile isVerRunB).length
  else if 1 ≤ d then
    1 + ((s.drop 1).takeWhile isVerRunB).length
  else 0

/-- One lexer step: `eof` at the end of input, `err` on a lexing error, or
the next token and the remaining input. -/
inductive LexStep where
  | eof
  | err
  | tok (t : VersionToken) (rest : Str)
deriving DecidableEq

/-- `Lexer::next`, with fuel bounding the nesting of the `sha256sum`
callback (`none` = out of fuel, a model artefact). -/
def nextToken : Nat → Str → Option LexStep
  | 0, _ => none
  | fuel + 1, s0 =>
    let s := s0.dropWhile isLexWs
    if s = [] then some .eof
    else if [61, 61].isPrefixOf s then some (.tok .eqEq (s.drop 2))
    else if [33, 61].isPrefixOf s then some (.tok .notEq (s.drop 2))
    else if [62, 61].isPrefixOf s then some (.tok .gtEq (s.drop 2))
    else if [60, 61].isPrefixOf s then some (.tok .ltEq (s.drop 2))
    else if [124, 124].isPrefixOf s then some (.tok .orOp (s.drop 2))
    else if [38, 38].isPrefixOf s then some (.tok .andOp (s.drop 2))
    else if [61].isPrefixOf s then some (.tok .eq (s.drop 1))
    else if [62].isPrefixOf s then some (.tok .gt (s.drop 1))
    else if [60].isPrefixOf s then some (.tok .lt (s.drop 1))
    else if [40].isPrefixOf s then some (.tok .lparen (s.drop 1))
    else if [41].isPrefixOf s then some (.tok .rparen (s.drop 1))
    else if (strB "sha256sum").isPrefixOf s then
      match nextToken fuel (s.drop 9) with
      | none => none
      | some (.tok .lparen r1) =>
        match nextToken fuel r1 with
        | none => none
        | some (.tok (.hexadecimal h) r2) =>
          match nextToken fuel r2 with
          | none => none
          | some (.tok .rparen r3) => some (.tok (.sha256Sum h) r3)
          | some _ => some .err
        | some _ => some .err
      | some _ => some .err
    else
      let hl := (s.takeWhile isHexB).length
      let vl := ver_match_len s
      if hl = 0 ∧ vl = 0 then some .err
      else if hl < vl then some (.tok (.versionNumber (s.take vl)) (s.drop vl))
      else some (.tok (.hexadecimal (s.take hl)) (s.drop hl))

/-- Result of lexing a whole input. -/
inductive LexOut where
  | err
  | toks (l : List VersionToken)
deriving DecidableEq

/-- Lex the whole input (`none` = out of fuel). -/
def lexAll : Nat → Str → Option LexOut
  | 0, _ => none
  | fuel + 1, s =>
    match nextToken (fuel + 1) s with
    | none => none
    | some .eof => some (.toks [])
    | some .err => some .err
    | some (.tok t rest) =>
      match lexAll fuel rest with
      | none => none
      | some .err => some .err
      | some (.toks l) => some (.toks (t :: l))

/-- The `$VER` placeholder token pushed before each comparison operator. -/
def placeholderTok : VersionToken := .versionNumber (strB "$VER")

/-- The `RParen` arm: pop operators onto the output until a `(` is found
(silently consuming everything when there is none), returning the remaining
operator stack and the popped operators in pop order. -/
def drain_rparen : List VersionToken → List VersionToken →
    List VersionToken × List VersionToken
  | [], acc => ([], acc)
  | op :: rest, acc =>
    if op = .lparen then (rest, acc) else drain_rparen rest (acc ++ [op])

/-- The final drain: pop all remaining operators in order, failing on an
unmatched `(`. -/
def drain_end : List VersionToken → Option (List VersionToken)
  | [] => some []
  | op :: rest =>
    if op = .lparen then none
    else
      match drain_end rest with
      | none => none
      | some l => some (op :: l)

/-- The shunting-yard loop of `parse_version_expr`: `stack` is the postfix
output (in order), `ops` the operator stack with its top at the head.  Note
the operator arm pops at most one operator per incoming token (the source
uses `if`, not a loop). -/
def parse_loop : List VersionToken → List VersionToken → List VersionToken →
    Bool → Option (List VersionToken)
  | [], stack, ops, _ =>
    match drain_end ops with
    | none => none
    | some l => some (stack ++ l)
  | t :: rest, stack0, ops, prev_is_op =>
    let stack := if t.is_cmp_op then stack0 ++ [placeholderTok] else stack0
    if t.is_op then
      match ops with
      | last_op :: ops_tail =>
        if t.precedence ≤ last_op.precedence then
          parse_loop rest (stack ++ [last_op]) (t :: ops_tail) t.is_op
        else parse_loop rest stack (t :: ops) t.is_op
      | [] => parse_loop rest stack (t :: ops) t.is_op
    else
      match t with
      | .lparen => parse_loop rest stack (.lparen :: ops) false
      | .rparen =>
        let dp := drain_rparen ops []
        parse_loop rest (stack ++ dp.2) dp.1 false
      | .hexadecimal _ => none
      | .sha256Sum _ | .versionNumber _ =>
        if prev_is_op then parse_loop rest (stack ++ [t]) ops false
        else none
      | _ => none

/-- `parse_version_expr`: lex, then shunt to postfix.  Outer `none` = out of
fuel (model artefact); inner `none` = the Rust function's `Err`. -/
def parse_version_expr (input : Str) (fuel : Nat) :
    Option (Option (List VersionToken)) :=
  match lexAll fuel input with
  | none => none
  | some .err => some none
  | some (.toks l) => some (parse_loop l [] [] false)

/-! ## Executor filesystem model (`src/reconstruct.rs`, lines 64–72 and
173–264)

The scratch tree is modelled as a set of directory paths and a map from
file paths to contents; paths are component lists.  There are no symbolic
links in the model, so `std::fs::canonicalize` (POSIX `realpath`) is
lexical `.`/`..` resolution followed by an existence check — `realpath`
fails with `ENOENT` when the named entry does not exist, which is what
makes `resolve_path` reject not-yet-existing targets.  External effects
(resource fetching, the `patch` and `xdelta3` subprocesses) are supplied
as an `ExternalOps` record. -/

/-- A filesystem path, as its components. -/
abbrev FsPath := List Str

/-- Scratch-tree state: existing directories and files with contents. -/
structure Fs where
  dirs : List FsPath
  files : List (FsPath × List Nat)
deriving DecidableEq

/-- Is `p` an existing file? -/
def Fs.isFile (fs : Fs) (p : FsPath) : Bool :=
  (fs.files.find? (fun e => e.1 == p)).isSome

/-- Is `p` an existing directory? -/
def Fs.isDir (fs : Fs) (p : FsPath) : Bool := fs.dirs.contains p

/-- Does `p` exist at all? -/
def Fs.existsPath (fs : Fs) (p : FsPath) : Bool := fs.isDir p || fs.isFile p

/-- Contents of file `p`. -/
def Fs.getFile (fs : Fs) (p : FsPath) : Option (List Nat) :=
  (fs.files.find? (fun e => e.1 == p)).map (·.2)

/-- Unlink file `p`. -/
def Fs.removeFile (fs : Fs) (p : FsPath) : Fs :=
  ⟨fs.dirs, fs.files.filter (fun e => !(e.1 == p))⟩

/-- Create or overwrite file `p`. -/
def Fs.setFile (fs : Fs) (p : FsPath) (content : List Nat) : Fs :=
  if fs.isFile p then
    ⟨fs.dirs, fs.files.map (fun e => if e.1 == p then (p, content) else e)⟩
  else ⟨fs.dirs, fs.files ++ [(p, content)]⟩

/-- Does directory `d` contain nothing? -/
def Fs.dirEmpty (fs : Fs) (d : FsPath) : Bool :=
  fs.dirs.all (fun p => !(d.isPrefixOf p) || p == d)
    && fs.files.all (fun e => !(d.isPrefixOf e.1))

/-- Replace prefix `q` by `dst` (for directory renames). -/
def replacePrefix (q dst p : FsPath) : FsPath :=
  if q.isPrefixOf p then dst ++ p.drop q.length else p

/-- `rename(2)` of directory `q` onto empty directory `dst`. -/
def Fs.renameDir (fs : Fs) (q dst : FsPath) : Fs :=
  ⟨(fs.dirs.filter (fun p => !(p == dst))).map (replacePrefix q dst),
   fs.files.map (fun e => (replacePrefix q dst e.1, e.2))⟩

/-- External effects of the executor: `fetch_resource_uri`, and the `patch`
and `xdelta3` subprocesses (which read the target and rewrite the tree, or
fail). -/
structure ExternalOps where
  fetch : Str → Except Str (List Nat)
  runPatch : FsPath → List Nat → Fs → Except Str Fs
  runBinaryPatch : FsPath → List Nat → Fs → Except Str Fs

/-- Split a path string on `'/'`, dropping empty components. -/
def pathComponents (s : Str) : List Str :=
  (splitOnByte 47 s).filter (fun c => !(c == []))

/-- `Path::join`: an absolute right-hand side replaces the root. -/
def joinPath (root : FsPath) (path : Str) : FsPath :=
  if path.head? = some 47 then pathComponents path
  else root ++ pathComponents path

/-- One step of lexical `.`/`..` resolution. -/
def normStep (acc : FsPath) (c : Str) : FsPath :=
  if c = strB "." then acc
  else if c = strB ".." then acc.dropLast
  else acc ++ [c]

/-- Lexical `.`/`..` resolution (`..` at the filesystem root stays there,
as in `realpath`). -/
def normalizePath (comps : FsPath) : FsPath :=
  comps.foldl normStep []

/-- `std::fs::canonicalize`: resolve the path and fail with an i/o error
when the named entry does not exist. -/
def canonicalize (fs : Fs) (p : FsPath) : Except Str FsPath :=
  let q := normalizePath p
  if fs.existsPath q then .ok q else .error (strB "io: not found")

/-- `resolve_path` (source lines 64–72): join against the root,
canonicalize, and reject any result that does not start with the root. -/
def resolve_path (fs : Fs) (root : FsPath) (path : Str) : Except Str FsPath :=
  match canonicalize fs (joinPath root path) with
  | .error e => .error e
  | .ok file_path =>
    if root.isPrefixOf file_path then .ok file_path
    else .error (strB "Invalid file path")

/-- `apply_file_operation` (source lines 173–264).  The result pairs the
Rust `Result` with the filesystem state afterwards (unchanged on error;
the `Divert`/`Track` arms are `todo!()` panics, modelled as errors, and
`Chmod` changes permission bits, which are outside the modelled state).
Every arm runs after `resolve_path` on the operation's path, exactly as in
the source, so a path-safety failure precedes any effect. -/
def apply_file_operation (ext : ExternalOps) (fs : Fs) (root : FsPath)
    (path : Str) (action : AprilFileOperationType) : Except Str Unit × Fs :=
  match resolve_path fs root path with
  | .error e => (.error e, fs)
  | .ok file_path =>
    match action with
    | .remove =>
      if fs.isFile file_path then (.ok (), fs.removeFile file_path)
      else (.error (strB "is a directory"), fs)
    | .move dst =>
      match resolve_path fs root dst with
      | .error e => (.error e, fs)
      | .ok dst_path =>
        if fs.isFile file_path then
          if fs.isFile dst_path then
            let content := (fs.getFile file_path).getD []
            (.ok (), (fs.removeFile file_path).setFile dst_path content)
          else (.error (strB "is a directory"), fs)
        else
          if fs.isDir dst_path then
            if fs.dirEmpty dst_path then (.ok (), fs.renameDir file_path dst_path)
            else (.error (strB "directory not empty"), fs)
          else (.error (strB "not a directory"), fs)
    | .copy dst =>
      match resolve_path fs root dst with
      | .error e => (.error e, fs)
      | .ok dst_path =>
        if fs.isFile file_path then
          if fs.isDir dst_path then (.error (strB "is a directory"), fs)
          else (.ok (), fs.setFile dst_path ((fs.getFile file_path).getD []))
        else (.error (strB "is a directory"), fs)
    | .link dst =>
      match resolve_path fs root dst with
      | .error e => (.error e, fs)
      | .ok dst_path =>
        -- symlink(2) creates at dst_path and fails with EEXIST when the
        -- target path exists; resolve_path only succeeds on existing paths,
        -- so this arm always fails.
        if fs.existsPath dst_path then (.error (strB "file exists"), fs)
        else (.ok (), fs.setFile dst_path [])
    | .patch uri =>
      match ext.fetch uri with
      | .error e => (.error e, fs)
      | .ok content =>
        match ext.runPatch file_path content fs with
        | .error e => (.error e, fs)
        | .ok fs2 => (.ok (), fs2)
    | .binaryPatch uri =>
      match ext.fetch uri with
      | .error e => (.error e, fs)
      | .ok content =>
        match ext.runBinaryPatch file_path content fs with
        | .error e => (.error e, fs)
        | .ok fs2 => (.ok (), fs2)
    | .divert _ => (.error (strB "panicked: not yet implemented"), fs)
    | .track => (.error (strB "panicked: not yet implemented"), fs)
    | .overwrite uri =>
      match ext.fetch uri with
      | .error e => (.error e, fs)
      | .ok content =>
        if fs.isDir file_path then (.error (strB "is a directory"), fs)
        else (.ok (), fs.setFile file_path content)
    | .add uri =>
      match ext.fetch uri with
      | .error e => (.error e, fs)
      | .ok content =>
        -- OpenOptions::new().create_new(true): EEXIST when the path exists
        if fs.existsPath file_path then (.error (strB "file exists"), fs)
        else (.ok (), fs.setFile file_path content)
    | .chmod _ =>
      if fs.existsPath file_path then (.ok (), fs)
      else (.error (strB "io: not found"), fs)
    | .mkdir =>
      if fs.isDir file_path then (.ok (), fs)
      else if fs.isFile file_path then (.error (strB "file exists"), fs)
      else (.ok (), ⟨fs.dirs ++ [file_path], fs.files⟩)

/-- A concrete scratch tree for witnesses: root `/tmp/scratch` holding one
file `exists.txt`. -/
def demoFs : Fs :=
  { dirs := [[strB "tmp"], [strB "tmp", strB "scratch"]],
    files := [([strB "tmp", strB "scratch", strB "exists.txt"], [104, 105])] }

/-- Concrete external effects for witnesses: fetching always yields `"x"`,
subprocesses succeed without changing the tree. -/
def demoExt : ExternalOps :=
  { fetch := fun _ => .ok [120],
    runPatch := fun _ _ fs => .ok fs,
    runBinaryPatch := fun _ _ fs => .ok fs }

/-! ## Output path of the reconstruction executor
(`src/reconstruct.rs`, line 356)

`apply_actions_for_reconstruct` writes the repacked package to
`deb_path.with_extension(".repacked.deb")`; `set_extension` replaces
everything after the file name's last `.` (when the portion before it is
non-empty) with `"." + extension`. -/

/-- A Rust `Path` split into parent components and file name. -/
structure RustPath where
  dir : List Str
  file_name : Str
deriving DecidableEq

/-- Index of the last `.` in a file name, if any. -/
def lastDotIdx (f : Str) : Option Nat :=
  ((f.enum.filter (fun e => e.2 == 46)).getLast?).map (·.1)

/-- `Path::file_stem`: the portion before the last `.`, except that a name
whose only `.` is leading has no extension and is its own stem. -/
def file_stem_of (f : Str) : Str :=
  match lastDotIdx f with
  | none => f
  | some 0 => f
  | some i => f.take i

/-- `Path::with_extension`: replace the extension (empty extension removes
it, otherwise the new name is `stem ++ "." ++ ext`). -/
def with_extension (p : RustPath) (ext : Str) : RustPath :=
  ⟨p.dir, file_stem_of p.file_name ++ (if ext = [] then [] else [46] ++ ext)⟩

/-- The output path computed at source line 356:
`deb_path.with_extension(".repacked.deb")`. -/
def new_deb_path (p : RustPath) : RustPath :=
  with_extension p (strB ".repacked.deb")

/-- The postfix sequence the repository's `test_parser_simple` expects for
`(=1.2.3 || =4.5.6) && <7.8.9 && sha256sum(012345abc)`. -/
def expectedPostfix : List VersionToken :=
  [placeholderTok, .versionNumber (strB "1.2.3"), .eq,
   placeholderTok, .versionNumber (strB "4.5.6"), .eq, .orOp,
   placeholderTok, .versionNumber (strB "7.8.9"), .lt,
   .sha256Sum (strB "012345abc"), .andOp, .andOp]

/-! ## Generic sublist helper -/

/-- A sublist of `r` is a sublist of `A ++ r`. -/
theorem sublist_skip_append {α : Type} {l r : List α} (A : List α)
    (h : l.Sublist r) : l.Sublist (A ++ r) :=
  h.trans (List.sublist_append_right A r)

/-- C1: in every plan, the lifecycle markers `PreconfigPackage`,
`ExtractPackage`, `ConfigurePackage` all occur, in that order. -/
theorem plan_lifecycle_markers_ordered (data : AprilPackage) :
    [AprilAction.preconfigPackage, AprilAction.extractPackage,
      AprilAction.configurePackage].Sublist
      (plan_actions_from_april_data data) := by
  unfold plan_actions_from_april_data
  simp only [List.append_assoc, List.singleton_append]
  apply sublist_skip_append
  apply sublist_skip_append
  apply sublist_skip_append
  apply sublist_skip_append
  apply sublist_skip_append
  apply sublist_skip_append
  apply List.Sublist.cons₂
  apply sublist_skip_append
  apply List.Sublist.cons₂
  apply sublist_skip_append
  apply sublist_skip_append
  apply sublist_skip_append
  apply sublist_skip_append
  apply sublist_skip_append
  apply sublist_skip_append
  apply sublist_skip_append
  apply sublist_skip_append
  apply sublist_skip_append
  apply sublist_skip_append
  apply sublist_skip_append
  apply sublist_skip_append
  apply sublist_skip_append
  apply List.Sublist.cons₂
  exact List.nil_sublist _

/-- A valid UTF-8 sequence never starts with a continuation byte (or with
the never-valid lead bytes `0xC0`/`0xC1`). -/
theorem utf8_head_not_cont (c : Nat) (r : Str) (h : utf8ValidB (c :: r) = true) :
    c < 0x80 ∨ 0xC2 ≤ c := by
  by_cases h1 : c < 0x80
  · exact Or.inl h1
  by_cases h2 : 0xC2 ≤ c
  · exact Or.inr h2
  exfalso
  simp only [utf8ValidB] at h
  rw [if_neg h1, if_neg (by omega : ¬(0xC2 ≤ c ∧ c ≤ 0xDF)),
    if_neg (by omega : ¬(0xE0 ≤ c ∧ c ≤ 0xEF)),
    if_neg (by omega : ¬(0xF0 ≤ c ∧ c ≤ 0xF4))] at h
  exact absurd h (by simp)

/-- Splitting after one byte succeeds whenever the remaining bytes are
themselves valid UTF-8. -/
theorem split_at_one_of_valid_tail (b : Nat) (v : Str)
    (hv : utf8ValidB v = true) :
    split_at_checked (b :: v) 1 = some ([b], v) := by
  cases v with
  | nil => rfl
  | cons c r =>
    have hbd : is_char_boundary (b :: c :: r) 1 =
        (decide (c < 0x80) || decide (0xC0 ≤ c)) := rfl
    have hT : is_char_boundary (b :: c :: r) 1 = true := by
      rw [hbd]
      rcases utf8_head_not_cont c r hv with h | h
      · simp [h]
      · have : 0xC0 ≤ c := by omega
        simp [this]
    simp [split_at_checked, hT]

/-- Splitting after one byte fails when the string starts with a multi-byte
character: its second byte is a continuation byte, not a boundary. -/
theorem split_at_one_multibyte (b : Nat) (v : Str)
    (h : utf8ValidB (b :: v) = true) (hb : 0x80 ≤ b) :
    split_at_checked (b :: v) 1 = none := by
  have hex : ∃ c r, v = c :: r ∧ isContB c = true := by
    simp only [utf8ValidB] at h
    rw [if_neg (by omega : ¬ b < 0x80)] at h
    by_cases h2 : 0xC2 ≤ b ∧ b ≤ 0xDF
    · rw [if_pos h2] at h
      cases v with
      | nil => exact absurd h (by simp [utf8Cont1])
      | cons c r =>
        simp only [utf8Cont1, Bool.and_eq_true] at h
        exact ⟨c, r, rfl, h.1⟩
    · rw [if_neg h2] at h
      by_cases h3 : 0xE0 ≤ b ∧ b ≤ 0xEF
      · rw [if_pos h3] at h
        cases v with
        | nil => exact absurd h (by simp [utf8Cont2])
        | cons c r =>
          simp only [utf8Cont2, Bool.and_eq_true] at h
          exact ⟨c, r, rfl, h.1⟩
      · rw [if_neg h3] at h
        by_cases h4 : 0xF0 ≤ b ∧ b ≤ 0xF4
        · rw [if_pos h4] at h
          cases v with
          | nil => exact absurd h (by simp [utf8Cont3])
          | cons c r =>
            simp only [utf8Cont3, Bool.and_eq_true] at h
            exact ⟨c, r, rfl, h.1⟩
        · rw [if_neg h4] at h
          exact absurd h (by simp)
  obtain ⟨c, r, rfl, hc⟩ := hex
  have hc' : 0x80 ≤ c ∧ c ≤ 0xBF := by
    simp only [isContB, Bool.and_eq_true, decide_eq_true_eq] at hc
    exact hc
  have hbd : is_char_boundary (b :: c :: r) 1 =
      (decide (c < 0x80) || decide (0xC0 ≤ c)) := rfl
  have hF : is_char_boundary (b :: c :: r) 1 = false := by
    rw [hbd]
    simp only [Bool.or_eq_false_iff, decide_eq_false_iff_not]
    omega
  simp [split_at_checked, hF]

/-- C3 (amended): a list-valued override expands element-wise; `+x` yields
`Append x`, `-x` yields `Remove x`, a bare element whose first character is
a single byte yields `Append` of the element, a bare element whose first
character is multi-byte yields no action (its `split_at_checked` fails),
an empty string yields no action, a present-but-empty list yields exactly
one `Replace` with the empty value, and an absent field yields nothing. -/
theorem list_override_expansion (name : Str) :
    add_fields_patch_action none name = []
  ∧ add_fields_patch_action (some []) name = [.patchField name [] .replace]
  ∧ (∀ vs, vs ≠ [] →
      add_fields_patch_action (some vs) name = vs.flatMap (list_elem_actions name))
  ∧ list_elem_actions name [] = []
  ∧ (∀ b v, utf8ValidB (b :: v) = true →
      list_elem_actions name (b :: v) =
        if b = 43 then [.patchField name v .append]
        else if b = 45 then [.patchField name v .remove]
        else if b < 0x80 then [.patchField name (b :: v) .append]
        else []) := by
  refine ⟨rfl, rfl, ?_, rfl, ?_⟩
  · intro vs hvs
    simp only [add_fields_patch_action]
    rw [if_neg hvs]
  · intro b v hval
    by_cases hb : b < 0x80
    · have hv : utf8ValidB v = true := by
        simp only [utf8ValidB] at hval
        rwa [if_pos hb] at hval
      simp only [list_elem_actions,
        split_at_one_of_valid_tail b v hv]
      by_cases h43 : b = 43
      · subst h43; simp
      · by_cases h45 : b = 45
        · subst h45; simp
        · simp [h43, h45, hb]
    · have hnone := split_at_one_multibyte b v hval (by omega)
      simp only [list_elem_actions, hnone]
      simp [show ¬ b = 43 by omega, show ¬ b = 45 by omega, hb]

/-- C3 (counterexample): the bare element `"é"` (bytes `[0xC3, 0xA9]`) has a
multi-byte first character, so the planner emits no action for it, not
`Append "é"` as the claim states. -/
theorem bare_multibyte_element_dropped :
    add_fields_patch_action (some [strB "é"]) (strB "Depends") = []
  ∧ add_fields_patch_action (some [strB "é"]) (strB "Depends") ≠
      [.patchField (strB "Depends") (strB "é") .append] := by
  constructor
  · decide
  · decide

/-- Witness for `list_override_expansion` at concrete inputs. -/
theorem list_override_expansion_witness :
    add_fields_patch_action (some [strB "+c", strB "é"]) (strB "Depends") =
      list_elem_actions (strB "Depends") (strB "+c")
        ++ list_elem_actions (strB "Depends") (strB "é")
  ∧ list_elem_actions (strB "Depends") (43 :: [99]) =
      [.patchField (strB "Depends") [99] .append]
  ∧ list_elem_actions (strB "Depends") (195 :: [169]) = [] := by
  obtain ⟨-, -, h3, -, h5⟩ := list_override_expansion (strB "Depends")
  refine ⟨?_, ?_, ?_⟩
  · rw [h3 [strB "+c", strB "é"] (by decide)]; decide
  · rw [h5 43 [99] (by decide)]; decide
  · rw [h5 195 [169] (by decide)]; decide

/-- C5: the planner writes the conffiles patch target as `"confflies"`, a
file name outside the documented set of `PatchScript` targets, and no
emitted action carries the documented name `"conffiles"`. -/
theorem conffiles_override_emits_misspelled_file :
    plan_actions_from_april_data conffilesManifest =
      [.preconfigPackage,
       .patchScript (strB "confflies") (some (strB "etc/foo.conf")) .replace,
       .extractPackage, .configurePackage]
  ∧ strB "confflies" ∉ allowedScriptFiles
  ∧ (plan_actions_from_april_data conffilesManifest).all
      (fun a => match a with
        | .patchScript f _ _ => f != strB "conffiles"
        | _ => true) = true := by
  refine ⟨by decide, by decide, by decide⟩

/-- C4: comparing a parseable version string with itself does not return
`Equal`: the comparator indexes one past the end of the byte slice and
panics.  Shown at the claim's failing input `"1"` and (third and fourth
conjuncts) at the upstream components of the repository's own
`test_version_cmp` inputs `"1.2.3-4"` and `"1.2.3+4"`, whose comparison
panics the same way. -/
theorem version_cmp_panics_on_equal_input :
    DebVersion.parse (strB "1") = some ⟨0, strB "1", []⟩
  ∧ debversion_partial_cmp ⟨0, strB "1", []⟩ ⟨0, strB "1", []⟩ 100 = .panicked
  ∧ DebVersion.parse (strB "1.2.3-4") = some ⟨0, strB "1.2.3", strB "4"⟩
  ∧ version_string_cmp (strB "1.2.3") (strB "1.2.3+4") 100 = .panicked := by
  refine ⟨by decide, by decide, by decide, by decide⟩

/-- C9: parsing `(=1.2.3 || =4.5.6) && <7.8.9 && sha256sum(012345abc)`
succeeds and yields the postfix sequence with three comparisons (each
preceded by the `$VER` placeholder and a version literal), one hash
predicate, one `||` and two `&&`; the `||` follows — and thus applies
to — the two equality comparisons (first seven tokens). -/
theorem parse_expr_postfix_example :
    parse_version_expr
        (strB "(=1.2.3 || =4.5.6) && <7.8.9 && sha256sum(012345abc)") 64 =
      some (some expectedPostfix)
  ∧ expectedPostfix.countP (fun t => t.is_cmp_op) = 3
  ∧ expectedPostfix.countP
      (fun t => match t with | .sha256Sum _ => true | _ => false) = 1
  ∧ expectedPostfix.countP (fun t => t == VersionToken.orOp) = 1
  ∧ expectedPostfix.countP (fun t => t == VersionToken.andOp) = 2
  ∧ expectedPostfix.take 7 =
      [placeholderTok, .versionNumber (strB "1.2.3"), .eq,
       placeholderTok, .versionNumber (strB "4.5.6"), .eq, .orOp] := by
  refine ⟨by decide, by decide, by decide, by decide, by decide, by decide⟩

/-- Reading back a field just set. -/
theorem pget_pset_self (p : Paragraph) (k v : Str) :
    pget (pset p k v) k = some v := by
  induction p with
  | nil => simp [pget, pset, List.find?]
  | cons e rest ih =>
    obtain ⟨k', v'⟩ := e
    by_cases h : k' = k
    · subst h
      simp [pget, pset, List.find?]
    · simp only [pset, if_neg h]
      simpa [pget, List.find?, beq_eq_false_iff_ne.mpr h] using ih

/-- Reading back a field just removed. -/
theorem pget_premove_self (p : Paragraph) (k : Str) :
    pget (premove p k) k = none := by
  induction p with
  | nil => rfl
  | cons e rest ih =>
    obtain ⟨k', v'⟩ := e
    by_cases h : k' = k
    · rw [show premove ((k', v') :: rest) k = premove rest k by
        simp [premove, List.filter, h]]
      exact ih
    · simp only [premove, pget, List.filter, List.find?,
        beq_eq_false_iff_ne.mpr h, Bool.not_false, cond_true]
      exact ih

/-- Filtering the empty field value always yields the empty value again. -/
theorem remove_item_empty (v : Str) : remove_item_from_string_list [] v = [] := by
  cases v with
  | nil => rfl
  | cons b bs => rfl

/-- C2: field-patch semantics on the patched field.  `Append` joins with
`", "` or sets outright when the field was empty or absent; `Replace` with
the empty value removes the field, with a non-empty value sets it; `Remove`
splits the current value on `','`, trims each element, drops elements equal
to the argument or starting with the argument followed by `" ("`, and joins
the survivors with `", "`. -/
theorem field_patch_semantics (p : Paragraph) (field value : Str) :
    (pget (apply_field_patch (.patchField field value .append) p) field =
        some (if (pget p field).getD [] = [] then value
              else (pget p field).getD [] ++ [44, 32] ++ value))
  ∧ (pget (apply_field_patch (.patchField field [] .replace) p) field = none)
  ∧ (value ≠ [] →
      pget (apply_field_patch (.patchField field value .replace) p) field =
        some value)
  ∧ (pget (apply_field_patch (.patchField field value .remove) p) field =
      some (List.intercalate [44, 32]
        (((splitOnByte 44 ((pget p field).getD [])).map trimBytes).filter
          (fun x => !(x == value) && !(List.isPrefixOf (value ++ [32, 40]) x))))) := by
  refine ⟨?_, ?_, ?_, ?_⟩
  · simp only [apply_field_patch]
    by_cases h : (pget p field).getD [] = []
    · rw [if_pos h, if_pos h, pget_pset_self]
    · rw [if_neg h, if_neg h, pget_pset_self]
  · simp only [apply_field_patch, if_pos rfl]
    exact pget_premove_self p field
  · intro hv
    simp only [apply_field_patch, if_neg hv]
    exact pget_pset_self p field value
  · simp only [apply_field_patch, remove_item_from_string_list]
    rw [pget_pset_self]

/-- Witness for `field_patch_semantics`, matching the repository's own
`test_apply_field_patch` and `test_remove_item_from_string_list` cases. -/
theorem field_patch_semantics_witness :
    pget (apply_field_patch
        (.patchField (strB "Depends") (strB "baz") .append)
        [(strB "Depends", strB "foo (>= 1.2.0), bar")]) (strB "Depends") =
      some (strB "foo (>= 1.2.0), bar, baz")
  ∧ pget (apply_field_patch
        (.patchField (strB "Depends") (strB "bar") .remove)
        [(strB "Depends", strB "foo, bar (>= 1.2.0), baz")]) (strB "Depends") =
      some (strB "foo, baz")
  ∧ pget (apply_field_patch
        (.patchField (strB "Depends") (strB "foo") .replace)
        [(strB "Depends", strB "bar")]) (strB "Depends") =
      some (strB "foo") := by
  refine ⟨?_, ?_, ?_⟩
  · rw [(field_patch_semantics
      [(strB "Depends", strB "foo (>= 1.2.0), bar")]
      (strB "Depends") (strB "baz")).1]
    decide
  · rw [(field_patch_semantics
      [(strB "Depends", strB "foo, bar (>= 1.2.0), baz")]
      (strB "Depends") (strB "bar")).2.2.2]
    decide
  · rw [(field_patch_semantics
      [(strB "Depends", strB "bar")]
      (strB "Depends") (strB "foo")).2.2.1 (by decide)]

/-- C10: `Remove` on an absent field inserts the field with an empty value
(the absent field reads as `""`, is filtered, and the result is written back
unconditionally), while `Replace` with an empty value leaves it absent. -/
theorem remove_on_absent_field_inserts_empty (p : Paragraph) (field value : Str)
    (h : pget p field = none) :
    pget (apply_field_patch (.patchField field value .remove) p) field = some []
  ∧ pget (apply_field_patch (.patchField field [] .replace) p) field = none := by
  constructor
  · simp only [apply_field_patch, h, Option.getD_none]
    rw [remove_item_empty, pget_pset_self]
  · simp only [apply_field_patch, if_pos rfl]
    exact pget_premove_self p field

/-- The resolved step of a successful `canonicalize` exists in the tree. -/
theorem canonicalize_ok_exists (fs : Fs) (p q : FsPath)
    (h : canonicalize fs p = .ok q) : fs.existsPath q = true := by
  by_cases hx : fs.existsPath (normalizePath p) = true
  · have : q = normalizePath p := by
      simp only [canonicalize, hx, if_true] at h
      exact (Except.ok.inj h).symm
    rw [this]; exact hx
  · exfalso
    simp only [canonicalize, Bool.not_eq_true] at hx
    simp [canonicalize, hx] at h

/-- The result of a successful `resolve_path` exists in the tree. -/
theorem resolve_path_ok_exists (fs : Fs) (root : FsPath) (path : Str)
    (q : FsPath) (h : resolve_path fs root path = .ok q) :
    fs.existsPath q = true := by
  unfold resolve_path at h
  cases hc : canonicalize fs (joinPath root path) with
  | error e => rw [hc] at h; exact absurd h (by simp)
  | ok fp =>
    rw [hc] at h
    by_cases hp : root.isPrefixOf fp = true
    · simp only [hp, if_true] at h
      have : q = fp := (Except.ok.inj h).symm
      subst this
      exact canonicalize_ok_exists fs _ q hc
    · rw [Bool.not_eq_true] at hp
      simp [hp] at h

/-- Folding the normalization step grows the accumulator by at most the
number of components consumed. -/
theorem foldl_normStep_length (p : FsPath) : ∀ acc : FsPath,
    (List.foldl normStep acc p).length ≤ acc.length + p.length := by
  induction p with
  | nil => intro acc; simp
  | cons c rest ih =>
    intro acc
    have hstep : (normStep acc c).length ≤ acc.length + 1 := by
      unfold normStep
      split_ifs with h1 h2
      · omega
      · rw [List.length_dropLast]; omega
      · simp
    calc (List.foldl normStep (normStep acc c) rest).length
        ≤ (normStep acc c).length + rest.length := ih _
      _ ≤ acc.length + (c :: rest).length := by simp; omega

/-- Joining `".."` onto a non-empty root and canonicalizing lands strictly
above the root, so the root is never a prefix of the result. -/
theorem dotdot_escape (root : FsPath) (hroot : root ≠ []) :
    root.isPrefixOf (normalizePath (joinPath root (strB ".."))) = false := by
  have hjoin : joinPath root (strB "..") = root ++ [strB ".."] := by
    unfold joinPath
    rw [if_neg (by decide)]
    rfl
  have hnorm : normalizePath (joinPath root (strB "..")) =
      (normalizePath root).dropLast := by
    rw [hjoin]
    unfold normalizePath
    rw [List.foldl_append]
    rfl
  rw [hnorm]
  by_contra hcon
  rw [Bool.not_eq_false] at hcon
  have hpre := List.isPrefixOf_iff_prefix.mp hcon
  have hlen := hpre.length_le
  have h1 : (normalizePath root).length ≤ root.length := by
    have := foldl_normStep_length root []
    simpa [normalizePath] using this
  have h2 : ((normalizePath root).dropLast).length =
      (normalizePath root).length - 1 := List.length_dropLast _
  have h3 : 1 ≤ root.length := by
    cases root with
    | nil => exact absurd rfl hroot
    | cons a l => simp
  omega

/-- C8: any file operation whose path canonicalizes outside the scratch
root fails with a path-safety (or i/o) error from `resolve_path`, before
any arm of `apply_file_operation` runs, and the tree is unchanged; in
particular (first conjunct) the path `".."` canonicalizes outside every
non-empty root. -/
theorem path_escape_rejected (ext : ExternalOps) (fs : Fs) (root : FsPath)
    (path : Str) (op : AprilFileOperationType) :
    (root ≠ [] →
      root.isPrefixOf (normalizePath (joinPath root (strB ".."))) = false)
  ∧ (root.isPrefixOf (normalizePath (joinPath root path)) = false →
      (∃ e, (apply_file_operation ext fs root path op).1 = .error e)
      ∧ (apply_file_operation ext fs root path op).2 = fs) := by
  constructor
  · exact dotdot_escape root
  · intro h
    have hres : ∃ e, resolve_path fs root path = .error e := by
      by_cases hx : fs.existsPath (normalizePath (joinPath root path)) = true
      · exact ⟨strB "Invalid file path",
          by simp [resolve_path, canonicalize, hx, h]⟩
      · rw [Bool.not_eq_true] at hx
        exact ⟨strB "io: not found",
          by simp [resolve_path, canonicalize, hx]⟩
    obtain ⟨e, he⟩ := hres
    exact ⟨⟨e, by simp [apply_file_operation, he]⟩,
      by simp [apply_file_operation, he]⟩

/-- Witness for `path_escape_rejected`: path `".."` against the scratch
root `/tmp/scratch` fails and leaves the tree unchanged. -/
theorem path_escape_rejected_witness :
    List.isPrefixOf [strB "tmp", strB "scratch"]
      (normalizePath (joinPath [strB "tmp", strB "scratch"] (strB ".."))) = false
  ∧ (∃ e, (apply_file_operation demoExt demoFs [strB "tmp", strB "scratch"]
        (strB "..") .remove).1 = .error e)
  ∧ (apply_file_operation demoExt demoFs [strB "tmp", strB "scratch"]
        (strB "..") .remove).2 = demoFs := by
  refine ⟨?_, ?_, ?_⟩
  · exact (path_escape_rejected demoExt demoFs [strB "tmp", strB "scratch"]
      (strB "..") .remove).1 (by decide)
  · exact ((path_escape_rejected demoExt demoFs [strB "tmp", strB "scratch"]
      (strB "..") .remove).2 (by decide)).1
  · exact ((path_escape_rejected demoExt demoFs [strB "tmp", strB "scratch"]
      (strB "..") .remove).2 (by decide)).2

/-- C6: the `add` file operation can never succeed: `resolve_path`
canonicalizes the full target path, which fails when the target does not
exist yet, while `OpenOptions::create_new` fails when it does.  In both
cases the tree is unchanged.  The last two conjuncts evaluate the claim's
two situations on a concrete tree. -/
theorem add_operation_never_succeeds :
    (∀ ext fs root (path uri : Str),
      (∃ e, (apply_file_operation ext fs root path (.add uri)).1 = .error e)
      ∧ (apply_file_operation ext fs root path (.add uri)).2 = fs)
  ∧ (apply_file_operation demoExt demoFs [strB "tmp", strB "scratch"]
      (strB "newfile") (.add (strB "file::data:,x"))).1 =
        .error (strB "io: not found")
  ∧ (apply_file_operation demoExt demoFs [strB "tmp", strB "scratch"]
      (strB "exists.txt") (.add (strB "file::data:,x"))).1 =
        .error (strB "file exists") := by
  refine ⟨?_, rfl, rfl⟩
  intro ext fs root path uri
  cases hres : resolve_path fs root path with
  | error e =>
    exact ⟨⟨e, by simp [apply_file_operation, hres]⟩,
      by simp [apply_file_operation, hres]⟩
  | ok q =>
    have hq : fs.existsPath q = true := resolve_path_ok_exists fs root path q hres
    cases hf : ext.fetch uri with
    | error e =>
      exact ⟨⟨e, by simp [apply_file_operation, hres, hf]⟩,
        by simp [apply_file_operation, hres, hf]⟩
    | ok content =>
      exact ⟨⟨strB "file exists",
          by simp [apply_file_operation, hres, hf, hq]⟩,
        by simp [apply_file_operation, hres, hf, hq]⟩

/-- C7 (counterexample): `with_extension(".repacked.deb")` replaces the
input's extension instead of appending, so `foo.deb` becomes
`foo..repacked.deb`, not `foo.deb.repacked.deb`. -/
theorem repacked_path_not_appended :
    new_deb_path ⟨[strB "tmp"], strB "foo.deb"⟩ =
      ⟨[strB "tmp"], strB "foo..repacked.deb"⟩
  ∧ (new_deb_path ⟨[strB "tmp"], strB "foo.deb"⟩).file_name ≠
      strB "foo.deb.repacked.deb" := by
  constructor
  · decide
  · decide

/-- C7 (amended): the repacked package path has the same parent directory
as the input, and its file name is the input's file stem followed by
`"..repacked.deb"` (the `.` that `set_extension` inserts plus the literal
extension `".repacked.deb"`). -/
theorem repacked_path_characterization (dir : List Str) (name : Str) :
    new_deb_path ⟨dir, name⟩ =
      ⟨dir, file_stem_of name ++ strB "..repacked.deb"⟩ := by
  unfold new_deb_path with_extension
  rw [if_neg (by decide : ¬ (strB ".repacked.deb" = []))]
  rw [show ([46] ++ strB ".repacked.deb" : Str) = strB "..repacked.deb" from by decide]

/-- Witness for `remove_on_absent_field_inserts_empty` on the empty
paragraph. -/
theorem remove_on_absent_field_inserts_empty_witness :
    pget (apply_field_patch
        (.patchField (strB "Depends") (strB "foo") .remove) []) (strB "Depends") =
      some []
  ∧ pget (apply_field_patch
        (.patchField (strB "Depends") [] .replace) []) (strB "Depends") = none :=
  remove_on_absent_field_inserts_empty [] (strB "Depends") (strB "foo") rfl

end April
